import Mathlib

/-!
Shallow embedding of the `FedCustom` federated-learning strategy from the
repository notebook `tutorial-series-build-a-strategy-from-scratch-pytorch.ipynb`.

Numeric tensors are modelled as flattened lists of rationals (a tensor's shape
is its element count), a parameter set as an ordered list of tensors, and the
framework helpers that the notebook imports from `flwr` (which belong to this
repository but are not among the packaged sources) are modelled from the spec.
A Python call that can raise is modelled with `Option`: `none` is a raised
error, `some` a normal return.
-/

/-- A flattened numeric tensor: Python floats are modelled as rationals. -/
abbrev Tensor := List ℚ

/-- An ordered list of tensors, as produced by `get_parameters`. -/
abbrev ParameterSet := List Tensor

/-- A config / metrics dictionary mapping string keys to scalars. -/
abbrev Config := List (String × ℚ)

/-- Metrics dictionaries share the shape of config dictionaries. -/
abbrev Metrics := List (String × ℚ)

/-- A client handle is identified by a stable identity. -/
abbrev ClientProxy := ℕ

/-- The shape signature of a parameter set: the length of each tensor in order. -/
def shapeOf (p : ParameterSet) : List ℕ := p.map List.length

/-- Multiply every element of a tensor by a scalar. -/
def scaleT (c : ℚ) (t : Tensor) : Tensor := t.map fun x => c * x

/-- Elementwise sum of two tensors. -/
def addT (a b : Tensor) : Tensor := List.zipWith (fun x y => x + y) a b

/-- Multiply every tensor of a parameter set by a scalar. -/
def scaleP (c : ℚ) (p : ParameterSet) : ParameterSet := p.map (scaleT c)

/-- Positionwise sum of two parameter sets. -/
def addP (a b : ParameterSet) : ParameterSet := List.zipWith addT a b

/-- Sum of a list of parameter sets (empty sum is the empty parameter set). -/
def sumP : List ParameterSet → ParameterSet
  | [] => []
  | [p] => p
  | p :: q :: rest => addP p (sumP (q :: rest))

/-- Total lookup of element `k` of tensor `i`, defaulting to `0` out of range. -/
def entry (p : ParameterSet) (i k : ℕ) : ℚ := (p.getD i []).getD k 0

/-- Python `int()` applied to a rational: truncation toward zero.  On a reduced
fraction this is T-division of the numerator by the denominator. -/
def pyInt (q : ℚ) : ℤ := q.num.tdiv q.den

/-- Modelled from the spec: `weighted_average(parameter_sets, weights)`, the
spec's description of the framework aggregation helper `aggregate` imported by
the notebook from `flwr.server.strategy.aggregate` (repository code not among
the packaged sources).  It requires equally many non-zero parameter sets and
weights, fails on a ShapeMismatch (two parameter sets differing in tensor count
or any tensor shape) and on ZeroWeight (total weight zero), and otherwise
returns the parameter set whose tensor `i` is
`sum(weight_j * tensor_i_j) / sum(weight_j)`. -/
def weighted_average (ps : List ParameterSet) (ws : List ℚ) : Option ParameterSet :=
  match ps with
  | [] => none
  | p :: rest =>
    if (p :: rest).length = ws.length ∧ (∀ q ∈ p :: rest, shapeOf q = shapeOf p) ∧ ws.sum ≠ 0
    then some (scaleP (ws.sum)⁻¹ (sumP (List.zipWith scaleP ws (p :: rest))))
    else none

/-- Modelled from the spec: `weighted_scalar_average(pairs of (weight, value))`,
the spec's description of the framework helper `weighted_loss_avg` imported by
the notebook from `flwr.server.strategy.aggregate` (repository code not among
the packaged sources): returns `sum(weight*value)/sum(weight)` and fails if the
total weight is zero. -/
def weighted_scalar_average (pairs : List (ℕ × ℚ)) : Option ℚ :=
  let total := (pairs.map Prod.fst).sum
  if total = 0 then none
  else some ((pairs.map fun p => (p.1 : ℚ) * p.2).sum / (total : ℚ))

/-- Modelled from the spec: `ClientRegistry.sample(num_clients, min_num_clients)`
(the framework client manager's sampling operation, repository code not among
the packaged sources).  It signals insufficiency by returning an empty client
sequence when fewer than `min_num_clients` clients are available, and otherwise
returns `num_clients` handles; the selection policy is left to the registry, so
the model takes them in registry order. -/
def sampleClients (available : List ClientProxy) (num_clients : ℤ)
    (min_num_clients : ℕ) : List ClientProxy :=
  if available.length < min_num_clients then []
  else available.take num_clients.toNat

/-- The strategy's configuration knobs, with the constructor's defaults. -/
structure FedCustom where
  fraction_fit : ℚ := 1
  fraction_evaluate : ℚ := 1
  min_fit_clients : ℕ := 2
  min_evaluate_clients : ℕ := 2
  min_available_clients : ℕ := 2

/-- Instructions dispatched to one client for a fit round. -/
structure FitIns where
  parameters : ParameterSet
  config : Config
  deriving DecidableEq

/-- One client's fit result: updated parameters, local sample count, metrics. -/
structure FitRes where
  parameters : ParameterSet
  num_examples : ℕ
  metrics : Metrics
  deriving DecidableEq

/-- Instructions dispatched to one client for an evaluation round. -/
structure EvaluateIns where
  parameters : ParameterSet
  config : Config
  deriving DecidableEq

/-- One client's evaluation result: loss, local sample count, metrics. -/
structure EvaluateRes where
  loss : ℚ
  num_examples : ℕ
  metrics : Metrics
  deriving DecidableEq

/-- A fit-round failure entry: either a client/result pair or an exception. -/
abbrev FitFailure := (ClientProxy × FitRes) ⊕ String

/-- An evaluate-round failure entry: a client/result pair or an exception. -/
abbrev EvaluateFailure := (ClientProxy × EvaluateRes) ⊕ String

/-- `FedCustom.num_fit_clients`: sample size and required number of clients,
`(max(int(num_available * fraction_fit), min_fit_clients), min_available_clients)`. -/
def FedCustom.num_fit_clients (s : FedCustom) (num_available_clients : ℕ) : ℤ × ℕ :=
  (max (pyInt ((num_available_clients : ℚ) * s.fraction_fit)) (s.min_fit_clients : ℤ),
    s.min_available_clients)

/-- `FedCustom.num_evaluation_clients`: the evaluation-side analogue. -/
def FedCustom.num_evaluation_clients (s : FedCustom) (num_available_clients : ℕ) : ℤ × ℕ :=
  (max (pyInt ((num_available_clients : ℚ) * s.fraction_evaluate)) (s.min_evaluate_clients : ℤ),
    s.min_available_clients)

/-- The `standard_config` dictionary built by `configure_fit`. -/
def standard_config : Config := [("lr", 1/1000)]

/-- The `higher_lr_config` dictionary built by `configure_fit`. -/
def higher_lr_config : Config := [("lr", 3/1000)]

/-- `FedCustom.configure_fit`: sample clients through the registry, then pair
each sampled client (by its position in the sampled order) with the shared
parameters and either the standard or the higher learning-rate config. -/
def FedCustom.configure_fit (s : FedCustom) (server_round : ℕ)
    (parameters : ParameterSet) (available : List ClientProxy) :
    List (ClientProxy × FitIns) :=
  let sm := s.num_fit_clients available.length
  let clients := sampleClients available sm.1 sm.2
  let half_clients := clients.length / 2
  clients.enum.map fun ic =>
    if ic.1 < half_clients then (ic.2, ⟨parameters, standard_config⟩)
    else (ic.2, ⟨parameters, higher_lr_config⟩)

/-- `FedCustom.aggregate_fit`: weighted average of the successful results'
parameter sets (weights are the sample counts); the failures argument is never
read.  The outer `Option` is the call raising (via the aggregation helper);
a normal return always carries `some` parameters and empty metrics. -/
def FedCustom.aggregate_fit (s : FedCustom) (server_round : ℕ)
    (results : List (ClientProxy × FitRes)) (failures : List FitFailure) :
    Option (Option ParameterSet × Metrics) :=
  let weights_results := results.map fun r => (r.2.parameters, r.2.num_examples)
  (weighted_average (weights_results.map Prod.fst)
      (weights_results.map fun wr => (wr.2 : ℚ))).map fun p => (some p, [])

/-- `FedCustom.configure_evaluate`: skip evaluation entirely when
`fraction_evaluate == 0.0`; otherwise sample clients and send each the shared
parameters with an empty config. -/
def FedCustom.configure_evaluate (s : FedCustom) (server_round : ℕ)
    (parameters : ParameterSet) (available : List ClientProxy) :
    List (ClientProxy × EvaluateIns) :=
  if s.fraction_evaluate = 0 then []
  else
    let sm := s.num_evaluation_clients available.length
    let clients := sampleClients available sm.1 sm.2
    clients.map fun c => (c, ⟨parameters, []⟩)

/-- `FedCustom.aggregate_evaluate`: `(None, {})` on empty results, otherwise the
sample-count-weighted average of the losses; the failures argument is never
read.  The outer `Option` is the call raising inside the averaging helper. -/
def FedCustom.aggregate_evaluate (s : FedCustom) (server_round : ℕ)
    (results : List (ClientProxy × EvaluateRes)) (failures : List EvaluateFailure) :
    Option (Option ℚ × Metrics) :=
  match results with
  | [] => some (none, [])
  | _ =>
    (weighted_scalar_average (results.map fun r => (r.2.num_examples, r.2.loss))).map
      fun loss_aggregated => (some loss_aggregated, [])

/-- `FedCustom.evaluate`: no server-side (centralized) evaluation, ever. -/
def FedCustom.evaluate (s : FedCustom) (server_round : ℕ)
    (parameters : ParameterSet) : Option (ℚ × Metrics) :=
  none

/-! ### Pointwise lemmas about the tensor operations -/

theorem getD_scaleT (c : ℚ) (t : Tensor) (k : ℕ) :
    (scaleT c t).getD k 0 = c * t.getD k 0 := by
  induction t generalizing k with
  | nil => simp [scaleT]
  | cons x t ih =>
    cases k with
    | zero => simp [scaleT]
    | succ k => simpa [scaleT] using ih k

theorem entry_scaleP (c : ℚ) (p : ParameterSet) (i k : ℕ) :
    entry (scaleP c p) i k = c * entry p i k := by
  induction p generalizing i with
  | nil => simp [entry, scaleP]
  | cons t p ih =>
    cases i with
    | zero => simpa [entry, scaleP] using getD_scaleT c t k
    | succ i => simpa [entry, scaleP] using ih i

theorem getD_addT (t u : Tensor) (hlen : t.length = u.length) (k : ℕ) :
    (addT t u).getD k 0 = t.getD k 0 + u.getD k 0 := by
  induction t generalizing u k with
  | nil =>
    have : u = [] := List.length_eq_zero.mp hlen.symm
    simp [addT, this]
  | cons x t ih =>
    cases u with
    | nil => simp at hlen
    | cons y u =>
      cases k with
      | zero => simp [addT]
      | succ k => simpa [addT] using ih u (by simpa using hlen) k

theorem entry_addP (a b : ParameterSet) (hsh : shapeOf a = shapeOf b) (i k : ℕ) :
    entry (addP a b) i k = entry a i k + entry b i k := by
  induction a generalizing b i with
  | nil =>
    have : b = [] := by
      simpa [shapeOf, List.map_eq_nil] using hsh.symm
    simp [entry, addP, this]
  | cons t a ih =>
    cases b with
    | nil => simp [shapeOf] at hsh
    | cons u b =>
      simp only [shapeOf, List.map_cons, List.cons.injEq] at hsh
      cases i with
      | zero => simpa [entry, addP] using getD_addT t u hsh.1 k
      | succ i => simpa [entry, addP] using ih b (by simpa [shapeOf] using hsh.2) i

theorem shapeOf_scaleP (c : ℚ) (p : ParameterSet) : shapeOf (scaleP c p) = shapeOf p := by
  induction p with
  | nil => simp [shapeOf, scaleP]
  | cons t p ih => simpa [shapeOf, scaleP, scaleT] using ih

theorem shapeOf_addP (a b : ParameterSet) (hsh : shapeOf a = shapeOf b) :
    shapeOf (addP a b) = shapeOf a := by
  induction a generalizing b with
  | nil => simp [shapeOf, addP]
  | cons t a ih =>
    cases b with
    | nil => simp [shapeOf] at hsh
    | cons u b =>
      simp only [shapeOf, List.map_cons, List.cons.injEq] at hsh
      have htail : shapeOf (addP a b) = shapeOf a :=
        ih b (by simpa [shapeOf] using hsh.2)
      simp only [addP, List.zipWith_cons_cons, shapeOf, List.map_cons, List.cons.injEq]
      constructor
      · simp [addT, hsh.1]
      · simpa [shapeOf, addP] using htail

theorem shapeOf_sumP (l : List ParameterSet) (sh : List ℕ)
    (hmem : ∀ q ∈ l, shapeOf q = sh) (hne : l ≠ []) : shapeOf (sumP l) = sh := by
  induction l with
  | nil => exact absurd rfl hne
  | cons p rest ih =>
    cases rest with
    | nil => simpa [sumP] using hmem p (by simp)
    | cons q rest =>
      have hrest : shapeOf (sumP (q :: rest)) = sh :=
        ih (fun r hr => hmem r (List.mem_cons_of_mem _ hr)) (by simp)
      have hp : shapeOf p = sh := hmem p (by simp)
      calc shapeOf (sumP (p :: q :: rest)) = shapeOf (addP p (sumP (q :: rest))) := rfl
        _ = shapeOf p := shapeOf_addP _ _ (hp.trans hrest.symm)
        _ = sh := hp

theorem entry_sumP (l : List ParameterSet) (sh : List ℕ)
    (hmem : ∀ q ∈ l, shapeOf q = sh) (i k : ℕ) :
    entry (sumP l) i k = (l.map fun q => entry q i k).sum := by
  induction l with
  | nil => simp [sumP, entry]
  | cons p rest ih =>
    cases rest with
    | nil => simp [sumP]
    | cons q rest =>
      have hrest : shapeOf (sumP (q :: rest)) = sh :=
        shapeOf_sumP _ sh (fun r hr => hmem r (List.mem_cons_of_mem _ hr)) (by simp)
      have hp : shapeOf p = sh := hmem p (by simp)
      calc entry (sumP (p :: q :: rest)) i k
          = entry (addP p (sumP (q :: rest))) i k := rfl
        _ = entry p i k + entry (sumP (q :: rest)) i k :=
            entry_addP _ _ (hp.trans hrest.symm) i k
        _ = entry p i k + ((q :: rest).map fun r => entry r i k).sum := by
            rw [ih (fun r hr => hmem r (List.mem_cons_of_mem _ hr))]
        _ = ((p :: q :: rest).map fun r => entry r i k).sum := by simp

theorem shapeOf_mem_zipWith_scaleP (ws : List ℚ) (ps : List ParameterSet) (sh : List ℕ)
    (hmem : ∀ q ∈ ps, shapeOf q = sh) :
    ∀ q ∈ List.zipWith scaleP ws ps, shapeOf q = sh := by
  induction ps generalizing ws with
  | nil => simp
  | cons p ps ih =>
    cases ws with
    | nil => simp
    | cons w ws =>
      intro q hq
      rcases List.mem_cons.mp hq with h | h
      · rw [h, shapeOf_scaleP]; exact hmem p (by simp)
      · exact ih ws (fun r hr => hmem r (List.mem_cons_of_mem _ hr)) q h

theorem map_entry_zipWith_scaleP (ws : List ℚ) (ps : List ParameterSet) (i k : ℕ) :
    (List.zipWith scaleP ws ps).map (fun q => entry q i k)
      = List.zipWith (fun w q => w * entry q i k) ws ps := by
  induction ps generalizing ws with
  | nil => simp
  | cons p ps ih =>
    cases ws with
    | nil => simp
    | cons w ws => simpa [entry_scaleP] using ih ws

theorem zipWith_map_same {α β γ δ : Type} (f : β → γ → δ) (g : α → β) (h : α → γ)
    (l : List α) :
    List.zipWith f (l.map g) (l.map h) = l.map fun a => f (g a) (h a) := by
  induction l with
  | nil => rfl
  | cons a l ih => simpa using ih

/-- Characterization of the spec-modelled `weighted_average` on well-formed
input: it succeeds and its output is, entrywise, the weighted mean. -/
theorem weighted_average_eq (ps : List ParameterSet) (ws : List ℚ) (sh : List ℕ)
    (hlen : ps.length = ws.length) (hne : ps ≠ [])
    (hsh : ∀ q ∈ ps, shapeOf q = sh) (hsum : ws.sum ≠ 0) :
    ∃ p, weighted_average ps ws = some p ∧ shapeOf p = sh ∧
      ∀ i k, entry p i k
        = (List.zipWith (fun w q => w * entry q i k) ws ps).sum / ws.sum := by
  cases ps with
  | nil => exact absurd rfl hne
  | cons p0 rest =>
    cases ws with
    | nil => simp at hlen
    | cons w0 wrest =>
      have hcond : (p0 :: rest).length = (w0 :: wrest).length ∧
          (∀ q ∈ p0 :: rest, shapeOf q = shapeOf p0) ∧ (w0 :: wrest).sum ≠ 0 :=
        ⟨hlen, fun q hq => (hsh q hq).trans (hsh p0 (by simp)).symm, hsum⟩
      have hmemZ : ∀ q ∈ List.zipWith scaleP (w0 :: wrest) (p0 :: rest), shapeOf q = sh :=
        shapeOf_mem_zipWith_scaleP _ _ sh hsh
      have hneZ : List.zipWith scaleP (w0 :: wrest) (p0 :: rest) ≠ [] := by simp
      refine ⟨scaleP ((w0 :: wrest).sum)⁻¹
          (sumP (List.zipWith scaleP (w0 :: wrest) (p0 :: rest))), ?_, ?_, ?_⟩
      · simp only [weighted_average, if_pos hcond]
      · rw [shapeOf_scaleP]
        exact shapeOf_sumP _ sh hmemZ hneZ
      · intro i k
        rw [entry_scaleP, entry_sumP _ sh hmemZ, map_entry_zipWith_scaleP,
          inv_mul_eq_div]

/-- Characterization of `FedCustom.aggregate_fit` on non-empty results with
matching shapes and positive sample counts: it returns the sample-count
weighted elementwise mean of the result parameter sets, with empty metrics. -/
theorem aggregate_fit_eq (s : FedCustom) (round : ℕ)
    (rs : List (ClientProxy × FitRes)) (failures : List FitFailure) (sh : List ℕ)
    (hne : rs ≠ []) (hsh : ∀ r ∈ rs, shapeOf r.2.parameters = sh)
    (hpos : ∀ r ∈ rs, 0 < r.2.num_examples) :
    ∃ p, s.aggregate_fit round rs failures = some (some p, []) ∧ shapeOf p = sh ∧
      ∀ i k, entry p i k
        = (rs.map fun r => (r.2.num_examples : ℚ) * entry r.2.parameters i k).sum
          / (rs.map fun r => (r.2.num_examples : ℚ)).sum := by
  have hlen : (rs.map fun r => r.2.parameters).length
      = (rs.map fun r => ((r.2.num_examples : ℕ) : ℚ)).length := by simp
  have hne' : (rs.map fun r => r.2.parameters) ≠ [] := by
    simpa [List.map_eq_nil_iff] using hne
  have hsh' : ∀ q ∈ rs.map fun r => r.2.parameters, shapeOf q = sh := by
    intro q hq
    rcases List.mem_map.mp hq with ⟨r, hr, rfl⟩
    exact hsh r hr
  have hsum : (rs.map fun r => ((r.2.num_examples : ℕ) : ℚ)).sum ≠ 0 := by
    have hpos' : 0 < (rs.map fun r => ((r.2.num_examples : ℕ) : ℚ)).sum := by
      refine List.sum_pos _ (fun x hx => ?_) (by simpa [List.map_eq_nil_iff] using hne)
      rcases List.mem_map.mp hx with ⟨r, hr, rfl⟩
      exact_mod_cast hpos r hr
    exact hpos'.ne'
  obtain ⟨p, hp, hshp, hentry⟩ :=
    weighted_average_eq (rs.map fun r => r.2.parameters)
      (rs.map fun r => ((r.2.num_examples : ℕ) : ℚ)) sh hlen hne' hsh' hsum
  refine ⟨p, ?_, hshp, ?_⟩
  · show (weighted_average
        ((rs.map fun r => (r.2.parameters, r.2.num_examples)).map Prod.fst)
        ((rs.map fun r => (r.2.parameters, r.2.num_examples)).map
          fun wr => (wr.2 : ℚ))).map (fun q => (some q, ([] : Metrics)))
        = some (some p, [])
    rw [List.map_map, List.map_map]
    show (weighted_average (rs.map fun r => r.2.parameters)
        (rs.map fun r => ((r.2.num_examples : ℕ) : ℚ))).map
        (fun q => (some q, ([] : Metrics))) = some (some p, [])
    rw [hp]
    rfl
  · intro i k
    rw [hentry i k, zipWith_map_same]

theorem pyInt_eq_floor (q : ℚ) (hq : 0 ≤ q) : pyInt q = ⌊q⌋ := by
  rw [pyInt, Int.tdiv_eq_ediv (Rat.num_nonneg.mpr hq) (Int.natCast_nonneg _), Rat.floor_def]

/-- Claim C10: for every round number and parameters value, the centralized
evaluation hook `FedCustom.evaluate` returns `none` (the "no centralized
evaluation" signal): this strategy never performs server-side evaluation. -/
theorem c10_evaluate_always_none (s : FedCustom) (server_round : ℕ)
    (parameters : ParameterSet) :
    s.evaluate server_round parameters = none := rfl

/-- Claim C1 (code evaluated at the failing input): `aggregate_fit` on an empty
results list does not return the `(None, {})` signal — it unconditionally feeds
the empty list to the aggregation helper, whose spec requires non-empty input,
so the call fails. -/
theorem c1_aggregate_fit_empty_fails (s : FedCustom) (server_round : ℕ)
    (failures : List FitFailure) :
    s.aggregate_fit server_round [] failures = none := rfl

/-- Claim C8: with `fraction_evaluate` exactly zero, `configure_evaluate`
returns the empty instruction sequence for every round number, parameters and
registry population, without sampling. -/
theorem c8_configure_evaluate_zero_fraction (s : FedCustom) (server_round : ℕ)
    (parameters : ParameterSet) (available : List ClientProxy)
    (h : s.fraction_evaluate = 0) :
    s.configure_evaluate server_round parameters available = [] := by
  simp [FedCustom.configure_evaluate, h]

/-- Witness for claim C8 at a concrete strategy and a populated registry. -/
theorem c8_witness :
    ({ fraction_evaluate := 0 } : FedCustom).configure_evaluate 4 [[1]] [0, 1, 2, 3, 4]
      = [] :=
  c8_configure_evaluate_zero_fraction _ 4 [[1]] [0, 1, 2, 3, 4] rfl

/-- Claim C9: whenever the registry sampling operation signals insufficiency by
returning the empty client sequence — in particular whenever fewer clients are
available than the required minimum — `configure_fit` returns the empty
instruction list: the round is skipped, not crashed. -/
theorem c9_insufficient_clients_skips_round (s : FedCustom) (server_round : ℕ)
    (parameters : ParameterSet) (available : List ClientProxy)
    (h : sampleClients available (s.num_fit_clients available.length).1
        (s.num_fit_clients available.length).2 = []) :
    s.configure_fit server_round parameters available = [] := by
  simp only [FedCustom.configure_fit, h]
  rfl

/-- Witness for claim C9: one available client, default minimum of two. -/
theorem c9_witness : ({} : FedCustom).configure_fit 1 [[2]] [7] = [] :=
  c9_insufficient_clients_skips_round {} 1 [[2]] [7] (by decide)

/-- Claim C3: `num_fit_clients` computes
`sample_size = max(floor(num_available * fraction_fit), min_fit_clients)` paired
with `required = min_available_clients`; in particular 100 available at
fraction 3/10 with minimum 3 gives 30, and 5 available gives 3 (the minimum
wins). -/
theorem c3_num_fit_clients_formula :
    (∀ (s : FedCustom) (num_available : ℕ), 0 ≤ s.fraction_fit →
      s.num_fit_clients num_available
        = (max ⌊(num_available : ℚ) * s.fraction_fit⌋ (s.min_fit_clients : ℤ),
            s.min_available_clients))
    ∧ (({ fraction_fit := 3/10, min_fit_clients := 3 } : FedCustom).num_fit_clients 100).1
        = 30
    ∧ (({ fraction_fit := 3/10, min_fit_clients := 3 } : FedCustom).num_fit_clients 5).1
        = 3 := by
  refine ⟨fun s n hf => ?_, ?_, ?_⟩
  · rw [FedCustom.num_fit_clients,
      pyInt_eq_floor _ (mul_nonneg (Nat.cast_nonneg n) hf)]
  · norm_num [FedCustom.num_fit_clients, pyInt]
  · norm_num [FedCustom.num_fit_clients, pyInt]
    decide

/-- Witness for claim C3's general formula at available 100, fraction 3/10. -/
theorem c3_witness :
    ({ fraction_fit := 3/10, min_fit_clients := 3 } : FedCustom).num_fit_clients 100
      = (max ⌊(100 : ℚ) * (3/10)⌋ 3, 2) :=
  c3_num_fit_clients_formula.1 { fraction_fit := 3/10, min_fit_clients := 3 } 100
    (by norm_num)

/-- Counterexample to claim C5: with `fraction_fit = 1/10`,
`min_fit_clients = 1`, `min_available_clients = 5` and 10 available clients,
the computed pair has `min_num_clients = 5 > sample_size = 1`, breaking the
claimed chain, while selection succeeds (a non-empty instruction list is
produced) instead of failing explicitly. -/
theorem c5_counterexample :
    ¬ (((FedCustom.num_fit_clients
          { fraction_fit := 1/10, min_fit_clients := 1, min_available_clients := 5 }
          10).2 : ℤ)
        ≤ (FedCustom.num_fit_clients
          { fraction_fit := 1/10, min_fit_clients := 1, min_available_clients := 5 }
          10).1)
    ∧ FedCustom.configure_fit
        { fraction_fit := 1/10, min_fit_clients := 1, min_available_clients := 5 }
        1 [] [0, 1, 2, 3, 4, 5, 6, 7, 8, 9] ≠ [] := by
  constructor
  · norm_num [FedCustom.num_fit_clients, pyInt]
  · norm_num [FedCustom.configure_fit, FedCustom.num_fit_clients, pyInt,
      sampleClients, List.enum]

/-- Claim C5, amended: the required count returned by `num_fit_clients` and
`num_evaluation_clients` is always exactly `min_available_clients`, and the
sample size always dominates the per-round minimum; the full claimed chain
`min_available_clients ≤ min_num_clients ≤ sample_size ≤ available` holds
provided the session floor does not exceed the per-round minimum, the fraction
lies in `[0, 1]`, and the per-round minimum does not exceed the number of
available clients. -/
theorem c5_selection_invariant_amended :
    (∀ (s : FedCustom) (n : ℕ),
      (s.num_fit_clients n).2 = s.min_available_clients
      ∧ (s.num_evaluation_clients n).2 = s.min_available_clients
      ∧ (s.min_fit_clients : ℤ) ≤ (s.num_fit_clients n).1
      ∧ (s.min_evaluate_clients : ℤ) ≤ (s.num_evaluation_clients n).1)
    ∧ (∀ (s : FedCustom) (n : ℕ),
        s.min_available_clients ≤ s.min_fit_clients →
        0 ≤ s.fraction_fit → s.fraction_fit ≤ 1 → s.min_fit_clients ≤ n →
        ((s.num_fit_clients n).2 : ℤ) ≤ (s.num_fit_clients n).1
        ∧ (s.num_fit_clients n).1 ≤ (n : ℤ))
    ∧ (∀ (s : FedCustom) (n : ℕ),
        s.min_available_clients ≤ s.min_evaluate_clients →
        0 ≤ s.fraction_evaluate → s.fraction_evaluate ≤ 1 →
        s.min_evaluate_clients ≤ n →
        ((s.num_evaluation_clients n).2 : ℤ) ≤ (s.num_evaluation_clients n).1
        ∧ (s.num_evaluation_clients n).1 ≤ (n : ℤ)) := by
  have hup : ∀ (f : ℚ), 0 ≤ f → f ≤ 1 → ∀ n : ℕ, pyInt ((n : ℚ) * f) ≤ (n : ℤ) := by
    intro f h0 h1 n
    rw [pyInt_eq_floor _ (mul_nonneg (Nat.cast_nonneg n) h0)]
    calc ⌊(n : ℚ) * f⌋ ≤ ⌊(n : ℚ)⌋ :=
          Int.floor_le_floor (by
            calc (n : ℚ) * f ≤ (n : ℚ) * 1 :=
                  mul_le_mul_of_nonneg_left h1 (Nat.cast_nonneg n)
              _ = (n : ℚ) := mul_one _)
      _ = (n : ℤ) := Int.floor_natCast n
  refine ⟨fun s n => ⟨rfl, rfl, le_max_right _ _, le_max_right _ _⟩,
    fun s n hmin h0 h1 hfit => ⟨?_, ?_⟩, fun s n hmin h0 h1 hev => ⟨?_, ?_⟩⟩
  · calc ((s.num_fit_clients n).2 : ℤ) = (s.min_available_clients : ℤ) := rfl
      _ ≤ (s.min_fit_clients : ℤ) := by exact_mod_cast hmin
      _ ≤ (s.num_fit_clients n).1 := le_max_right _ _
  · exact max_le (hup _ h0 h1 n) (by exact_mod_cast hfit)
  · calc ((s.num_evaluation_clients n).2 : ℤ) = (s.min_available_clients : ℤ) := rfl
      _ ≤ (s.min_evaluate_clients : ℤ) := by exact_mod_cast hmin
      _ ≤ (s.num_evaluation_clients n).1 := le_max_right _ _
  · exact max_le (hup _ h0 h1 n) (by exact_mod_cast hev)

/-- Witness for the amended claim C5 at the default strategy with 3 available
clients. -/
theorem c5_witness :
    ((({} : FedCustom).num_fit_clients 3).2 : ℤ) ≤ (({} : FedCustom).num_fit_clients 3).1
    ∧ (({} : FedCustom).num_fit_clients 3).1 ≤ (3 : ℤ) :=
  c5_selection_invariant_amended.2.1 {} 3 (by norm_num) (by norm_num) (by norm_num)
    (by norm_num)

/-- Claim C4: `configure_fit` pairs the sampled clients in sample order —
position `i` receives the shared parameters with the standard (lr 0.001)
config when `i < floor(n/2)` and the higher (lr 0.003) config otherwise; with
10 sampled clients exactly the first 5 get the standard config and the last 5
the higher one. -/
theorem c4_configure_fit_halves :
    (∀ (s : FedCustom) (server_round : ℕ) (parameters : ParameterSet)
        (available : List ClientProxy) (clients : List ClientProxy),
      clients = sampleClients available (s.num_fit_clients available.length).1
          (s.num_fit_clients available.length).2 →
      ∀ i : ℕ,
        (s.configure_fit server_round parameters available)[i]?
          = clients[i]?.map fun c =>
              (c, ⟨parameters,
                if i < clients.length / 2 then standard_config
                else higher_lr_config⟩))
    ∧ ({} : FedCustom).configure_fit 1 [] [0, 1, 2, 3, 4, 5, 6, 7, 8, 9]
        = [(0, ⟨[], standard_config⟩), (1, ⟨[], standard_config⟩),
           (2, ⟨[], standard_config⟩), (3, ⟨[], standard_config⟩),
           (4, ⟨[], standard_config⟩), (5, ⟨[], higher_lr_config⟩),
           (6, ⟨[], higher_lr_config⟩), (7, ⟨[], higher_lr_config⟩),
           (8, ⟨[], higher_lr_config⟩), (9, ⟨[], higher_lr_config⟩)] := by
  constructor
  · intro s server_round parameters available clients hcl i
    subst hcl
    show ((sampleClients available (s.num_fit_clients available.length).1
        (s.num_fit_clients available.length).2).enum.map _)[i]? = _
    rw [List.getElem?_map, List.getElem?_enum]
    cases (sampleClients available (s.num_fit_clients available.length).1
        (s.num_fit_clients available.length).2)[i]? with
    | none => rfl
    | some c =>
      simp only [Option.map]
      split <;> rfl
  · have hsm : ({} : FedCustom).num_fit_clients 10 = (10, 2) := by
      norm_num [FedCustom.num_fit_clients, pyInt]
    simp only [FedCustom.configure_fit, List.length_cons, List.length_nil]
    norm_num
    rw [hsm]
    rfl

/-- Witness for claim C4's positional characterization at a concrete call. -/
theorem c4_witness :
    (({} : FedCustom).configure_fit 2 [] [3, 4, 5])[0]?
      = (sampleClients [3, 4, 5] (({} : FedCustom).num_fit_clients 3).1
          (({} : FedCustom).num_fit_clients 3).2)[0]?.map (fun c =>
          (c, ⟨[], if 0 < (sampleClients [3, 4, 5]
                (({} : FedCustom).num_fit_clients 3).1
                (({} : FedCustom).num_fit_clients 3).2).length / 2
            then standard_config else higher_lr_config⟩)) :=
  c4_configure_fit_halves.1 {} 2 [] [3, 4, 5] _ rfl 0

/-- Claim C7: `aggregate_evaluate` returns `(None, {})` on an empty results
list; on non-empty results with non-zero total sample count it returns the
sample-count-weighted average of the losses `sum(count_i * loss_i) /
sum(count_i)` with empty metrics; in particular results with (count, loss)
pairs (10, 2) and (30, 4) aggregate to the loss 7/2 = 3.5. -/
theorem c7_aggregate_evaluate_weighted_loss :
    (∀ (s : FedCustom) (server_round : ℕ) (failures : List EvaluateFailure),
      s.aggregate_evaluate server_round [] failures = some (none, []))
    ∧ (∀ (s : FedCustom) (server_round : ℕ)
        (results : List (ClientProxy × EvaluateRes))
        (failures : List EvaluateFailure),
        results ≠ [] → 0 < (results.map fun r => r.2.num_examples).sum →
        s.aggregate_evaluate server_round results failures
          = some (some ((results.map fun r => (r.2.num_examples : ℚ) * r.2.loss).sum
              / (((results.map fun r => r.2.num_examples).sum : ℕ) : ℚ)), []))
    ∧ ({} : FedCustom).aggregate_evaluate 1
        [(0, { loss := 2, num_examples := 10, metrics := [] }),
         (1, { loss := 4, num_examples := 30, metrics := [] })] []
        = some (some (7/2), []) := by
  refine ⟨fun s server_round failures => rfl, ?_, ?_⟩
  · intro s server_round results failures hne hsum
    cases results with
    | nil => exact absurd rfl hne
    | cons r rest =>
      show (weighted_scalar_average
          ((r :: rest).map fun x => (x.2.num_examples, x.2.loss))).map
          (fun loss_aggregated => (some loss_aggregated, ([] : Metrics)))
          = _
      simp only [weighted_scalar_average, List.map_map]
      rw [if_neg]
      · rfl
      · show ¬ ((r :: rest).map fun x => x.2.num_examples).sum = 0
        exact hsum.ne'
  · norm_num [FedCustom.aggregate_evaluate, weighted_scalar_average]

/-- Witness for claim C7's weighted-average branch at a concrete one-client
result list. -/
theorem c7_witness :
    ({} : FedCustom).aggregate_evaluate 3
        [(5, { loss := 1, num_examples := 2, metrics := [] })] []
      = some (some 1, []) := by
  have h := c7_aggregate_evaluate_weighted_loss.2.1 {} 3
    [(5, { loss := 1, num_examples := 2, metrics := [] })] [] (by simp) (by decide)
  rw [h]
  norm_num

/-- Claim C2: on a non-empty results list whose parameter sets all share one
shape signature and whose sample counts are positive, `aggregate_fit` returns
a parameter set of the same shape whose element `k` of tensor `i` is the
sample-count-weighted mean `sum_j(count_j * tensor_ij[k]) / sum_j(count_j)`. -/
theorem c2_aggregate_fit_weighted_mean (s : FedCustom) (server_round : ℕ)
    (results : List (ClientProxy × FitRes)) (failures : List FitFailure)
    (sh : List ℕ) (hne : results ≠ [])
    (hsh : ∀ r ∈ results, shapeOf r.2.parameters = sh)
    (hpos : ∀ r ∈ results, 0 < r.2.num_examples) :
    ∃ p, s.aggregate_fit server_round results failures = some (some p, [])
      ∧ shapeOf p = sh
      ∧ ∀ i k, entry p i k
          = (results.map fun r => (r.2.num_examples : ℚ) * entry r.2.parameters i k).sum
            / (results.map fun r => (r.2.num_examples : ℚ)).sum :=
  aggregate_fit_eq s server_round results failures sh hne hsh hpos

/-- Witness for claim C2 at two concrete single-tensor results: counts 1 and 3
with tensors `[2, 4]` and `[4, 8]`. -/
theorem c2_witness :
    ∃ p, ({} : FedCustom).aggregate_fit 1
        [(0, { parameters := [[2, 4]], num_examples := 1, metrics := [] }),
         (1, { parameters := [[4, 8]], num_examples := 3, metrics := [] })] []
        = some (some p, [])
      ∧ shapeOf p = [2]
      ∧ entry p 0 0 = 7/2 ∧ entry p 0 1 = 7 := by
  obtain ⟨p, hp, hsh, hentry⟩ := c2_aggregate_fit_weighted_mean {} 1
    [(0, { parameters := [[2, 4]], num_examples := 1, metrics := [] }),
     (1, { parameters := [[4, 8]], num_examples := 3, metrics := [] })] [] [2]
    (by simp) (by decide) (by decide)
  refine ⟨p, hp, hsh, ?_, ?_⟩
  · rw [hentry 0 0]
    norm_num [entry]
  · rw [hentry 0 1]
    norm_num [entry]

/-- Counterexample to claim C6: a non-empty results list with a tensor shape
mismatch (a 2-element against a 3-element tensor at position 0) makes
`aggregate_fit` fail, so `aggregate_fit` does not succeed on every non-empty
results list. -/
theorem c6_counterexample :
    ([((0 : ClientProxy),
        ({ parameters := [[1, 1]], num_examples := 1, metrics := [] } : FitRes)),
      (1, { parameters := [[1, 1, 1]], num_examples := 1, metrics := [] })]
        ≠ ([] : List (ClientProxy × FitRes)))
    ∧ ({} : FedCustom).aggregate_fit 1
        [(0, { parameters := [[1, 1]], num_examples := 1, metrics := [] }),
         (1, { parameters := [[1, 1, 1]], num_examples := 1, metrics := [] })] []
        = none := by
  constructor
  · simp
  · decide

/-- Claim C6, amended: `aggregate_fit` never reads the failures argument — any
two failures lists (failed clients, absent clients, exceptions) produce the
identical outcome, so failures alone never abort aggregation — and it succeeds
whenever the successful results are non-empty with matching shapes and positive
sample counts. -/
theorem c6_failures_ignored_amended :
    (∀ (s : FedCustom) (server_round : ℕ) (results : List (ClientProxy × FitRes))
        (failures1 failures2 : List FitFailure),
      s.aggregate_fit server_round results failures1
        = s.aggregate_fit server_round results failures2)
    ∧ (∀ (s : FedCustom) (server_round : ℕ)
        (results : List (ClientProxy × FitRes)) (failures : List FitFailure)
        (sh : List ℕ), results ≠ [] →
        (∀ r ∈ results, shapeOf r.2.parameters = sh) →
        (∀ r ∈ results, 0 < r.2.num_examples) →
        (s.aggregate_fit server_round results failures).isSome = true) := by
  constructor
  · intro s server_round results failures1 failures2
    rfl
  · intro s server_round results failures sh hne hsh hpos
    obtain ⟨p, hp, -, -⟩ := aggregate_fit_eq s server_round results failures sh hne hsh hpos
    rw [hp]
    rfl

/-- Witness for the amended claim C6: aggregation succeeds on a concrete
well-formed results list while an exception entry sits in the failures list. -/
theorem c6_witness :
    (({} : FedCustom).aggregate_fit 2
        [(4, { parameters := [[6]], num_examples := 2, metrics := [] })]
        [Sum.inr ("client timed out")]).isSome = true :=
  c6_failures_ignored_amended.2 {} 2
    [(4, { parameters := [[6]], num_examples := 2, metrics := [] })]
    [Sum.inr ("client timed out")] [1] (by simp) (by decide) (by decide)
